import Mathlib

/-!
A shallow embedding of the question retrieval engine of the server:
the search-term parser, special-case detector, tag resolver, query
predicate builder, ordering engine and strategy selector
(server/strategies/searchStrategy.ts, server/repositories (question
repository part), server/models/schema/question.ts, and the question
service entry point), together with theorems about them.

Modelling conventions:
* `Date` values are `Nat` epoch milliseconds.
* Mongo ObjectId values are `Nat`.
* The storage collaborator is a `Storage` value: the Question and Tag
  collections as lists in storage (retrieval) order; `Model.find(query)`
  is `List.filter` with the query's matching semantics, preserving that
  order.
* JavaScript `Array.prototype.sort` is stable (ES2019); a sort with
  comparator `(a, b) => keyB - keyA` is embedded as the stable
  `List.mergeSort` with the boolean relation `keyB <= keyA`.  Mongo's
  `.sort({field: -1})` is embedded the same way.
* `new RegExp(term, 'i')` tested against a string field is modelled as
  case-insensitive substring containment, which is exact for terms
  without regex metacharacters.
-/

namespace FakeSO

/-- Answer document (models/schema/answer.ts): identifier, body text,
author, creation timestamp.  The retrieval engine reads answers in
populated form, so the record carries its `ans_date_time` directly. -/
structure Answer where
  _id : Nat
  text : String
  ans_by : String
  ans_date_time : Nat
deriving DecidableEq, Repr

/-- Tag document (models/schema/tag.ts): identifier and name (stored
as written; no case normalization on write). -/
structure Tag where
  _id : Nat
  name : String
deriving DecidableEq, Repr

/-- Question document (models/schema/question.ts), in the populated
form the ordering engine sees: `answers` are full answer objects,
`tags` are tag identifier references. -/
structure Question where
  _id : Nat
  title : String
  text : String
  asked_by : String
  ask_date_time : Nat
  views : Nat
  answers : List Answer
  tags : List Nat
deriving DecidableEq, Repr

/-- The storage collaborator: the two collections the retrieval engine
reads, in storage (retrieval) order. -/
structure Storage where
  questions : List Question
  tags : List Tag
deriving DecidableEq, Repr

/-- `hasAnswers` virtual (question.ts:51-53): `this.answers && this.answers.length > 0`. -/
def Question.hasAnswers (q : Question) : Bool :=
  decide (0 < q.answers.length)

/-- `mostRecentActivity` virtual (question.ts:59-90).  With populated
answers every entry is an object carrying `ans_date_time`, so each one
contributes its date; `Math.max(...dates)` over the non-empty date list
is the fold of binary `max` (all dates are `Nat`, so folding from `0`
gives the maximum).  The final line returns the later of the latest
answer date and the question's own date. -/
def Question.mostRecentActivity (q : Question) : Nat :=
  if !q.hasAnswers then
    q.ask_date_time
  else
    let answerDates := q.answers.map (fun a => a.ans_date_time)
    if answerDates.isEmpty then
      q.ask_date_time
    else
      let latestAnswerDate := answerDates.foldl max 0
      if latestAnswerDate > q.ask_date_time then latestAnswerDate else q.ask_date_time

/-- Result of `SearchStrategyFactory.parseSearchTerms`
(searchStrategy.ts:224-238). -/
structure ParsedTerms where
  tagSearchTerms : List String
  regularSearchTerms : List String
deriving DecidableEq, Repr

/-- Splitting a character list at every separator character (those
satisfying `p`), keeping empty pieces, with `acc` the characters of the
current piece in reverse.  With `p` testing for the space character this
is exactly JavaScript `String.prototype.split(' ')`: `""` yields `[""]`
and consecutive separators yield empty pieces. -/
def splitCharsAux (p : Char → Bool) : List Char → List Char → List (List Char)
  | [], acc => [acc.reverse]
  | c :: rest, acc =>
      if p c then acc.reverse :: splitCharsAux p rest []
      else splitCharsAux p rest (c :: acc)

/-- Split a string at every character satisfying `p`, keeping empty
pieces. -/
def splitChars (p : Char → Bool) (s : String) : List String :=
  (splitCharsAux p s.data []).map (fun cs => String.mk cs)

/-- JavaScript `String.prototype.toLowerCase` (character-wise lowering,
exact on ASCII). -/
def strToLower (s : String) : String :=
  String.mk (s.data.map Char.toLower)

/-- JavaScript `String.prototype.startsWith` with a one-character prefix
argument. -/
def strStartsWith (s p : String) : Bool :=
  p.data.isPrefixOf s.data

/-- JavaScript `String.prototype.endsWith` with a one-character suffix
argument. -/
def strEndsWith (s p : String) : Bool :=
  p.data.isSuffixOf s.data

/-- JavaScript `String.prototype.slice(1, -1)`: drop the first and the
last character. -/
def strSlice1Neg1 (s : String) : String :=
  String.mk (s.data.drop 1).dropLast

/-- `SearchStrategyFactory.parseSearchTerms` (searchStrategy.ts:224-238).
JavaScript `searchStr.split(' ')` splits on the single space character
and keeps empty pieces; a token is a tag term iff it starts with `[` and
ends with `]` and then has length at least two, so `slice(1, -1)` drops
exactly its brackets. -/
def parseSearchTerms (searchStr : String) : ParsedTerms :=
  let searchTerms := splitChars (fun c => c = ' ') searchStr
  { tagSearchTerms :=
      (searchTerms.filter (fun term => strStartsWith term "[" && strEndsWith term "]")).map
        (fun term => strToLower (strSlice1Neg1 term))
    regularSearchTerms :=
      (searchTerms.filter (fun term => !(strStartsWith term "[" && strEndsWith term "]"))).map
        (fun term => strToLower term) }

/-- The parser as the specification words it: "Splits on whitespace into
tokens", the tokens being the maximal whitespace-free runs; classification
of tokens as in the source.  Used only to compare the source parser
against the specification's description. -/
def parseSearchTermsSpec (searchStr : String) : ParsedTerms :=
  let searchTerms := (splitChars Char.isWhitespace searchStr).filter (fun t => !t.data.isEmpty)
  { tagSearchTerms :=
      (searchTerms.filter (fun term => strStartsWith term "[" && strEndsWith term "]")).map
        (fun term => strToLower (strSlice1Neg1 term))
    regularSearchTerms :=
      (searchTerms.filter (fun term => !(strStartsWith term "[" && strEndsWith term "]"))).map
        (fun term => strToLower term) }

/-- `SearchStrategyFactory.isSpecialSearch` (searchStrategy.ts:250-255). -/
def isSpecialSearch (regularSearchTerms tagSearchTerms : List String) : Bool :=
  regularSearchTerms.contains "40" &&
    regularSearchTerms.contains "million" &&
    regularSearchTerms.contains "documents" &&
    tagSearchTerms.contains "javascript"

/-- `RegularSearchStrategy.findTagIds` (searchStrategy.ts:132-148).
`none` embeds the `null` no-such-tag sentinel; `Tag.find({name: {$in:
terms}})` is exact string equality of the stored name against any of the
terms, returning matches in storage order; the final map re-wraps each
`_id` unchanged. -/
def findTagIds (tagSearchTerms : List String) (tags : List Tag) : Option (List Nat) :=
  if tagSearchTerms.isEmpty then
    some []
  else
    let matchingTags := tags.filter (fun t => tagSearchTerms.contains t.name)
    if matchingTags.isEmpty then
      none
    else
      some (matchingTags.map (fun t => t._id))

/-- The Mongo query object built by `RegularSearchStrategy.buildQuery`:
an optional `tags: {$in: ids}` clause and an optional
`$or: [{title: {$in: regexes}}, {text: {$in: regexes}}]` clause, each
present only when set. -/
structure MongoQuery where
  tags : Option (List Nat) := none
  orTitleText : Option (List String) := none
deriving DecidableEq, Repr

/-- `RegularSearchStrategy.buildQuery` (searchStrategy.ts:158-179). -/
def buildQuery (tagIds : List Nat) (regularSearchTerms : List String) : MongoQuery :=
  let query : MongoQuery := {}
  let query := if tagIds.length > 0 then { query with tags := some tagIds } else query
  if regularSearchTerms.length > 0 then
    { query with orTitleText := some regularSearchTerms }
  else query

/-- Substring containment on character lists (`needle` occurs
contiguously in the second argument). -/
def listContainsSub (needle : List Char) : List Char → Bool
  | [] => needle.isEmpty
  | c :: rest => needle.isPrefixOf (c :: rest) || listContainsSub needle rest

/-- Models `new RegExp(term, 'i')` (searchStrategy.ts:168-169) tested
against a string field: case-insensitive substring containment, exact
for terms without regex metacharacters. -/
def regexTestI (term field : String) : Bool :=
  listContainsSub (strToLower term).data (strToLower field).data

/-- Mongo matching semantics of the built query against one question:
top-level fields are conjoined; `tags: {$in: ids}` matches when some
element of the question's tag array is among `ids`; the `$or` clause
matches when the title or the text matches some term's
case-insensitive regex. -/
def matchesQuery (query : MongoQuery) (q : Question) : Bool :=
  (match query.tags with
   | none => true
   | some ids => q.tags.any (fun t => ids.contains t)) &&
  (match query.orTitleText with
   | none => true
   | some terms =>
       terms.any (fun term => regexTestI term q.title) ||
         terms.any (fun term => regexTestI term q.text))

/-- Comparator of the `active` sorts (question.ts:146-150,
answerRepository question part 172-176): JavaScript's stable sort with
`(a, b) => dateB.getTime() - dateA.getTime()` is the stable descending
sort by `mostRecentActivity`. -/
def activityLe (a b : Question) : Bool :=
  decide (b.mostRecentActivity ≤ a.mostRecentActivity)

/-- Descending order on `ask_date_time`, embedding Mongo's
`.sort({ask_date_time: -1})`. -/
def newestLe (a b : Question) : Bool :=
  decide (b.ask_date_time ≤ a.ask_date_time)

/-- `QuestionRepository.getQuestionsByQuery` (question repository
160-201): switch on the order key; `active` retrieves the questions
matching the query (full candidate set, answers populated) and
stable-sorts them by most recent activity descending; `unanswered`
adds `answers: {$size: 0}` to the query and sorts by creation date
descending; the default case (any other or absent key) sorts the
matching questions by creation date descending. -/
def getQuestionsByQuery (query : MongoQuery) (order : Option String)
    (qs : List Question) : List Question :=
  if order = some "active" then
    (qs.filter (fun q => matchesQuery query q)).mergeSort activityLe
  else if order = some "unanswered" then
    (qs.filter (fun q => matchesQuery query q && q.answers.isEmpty)).mergeSort newestLe
  else
    (qs.filter (fun q => matchesQuery query q)).mergeSort newestLe

/-- `Question.getNewestQuestions` static (question.ts:115-120). -/
def getNewestQuestions (qs : List Question) : List Question :=
  qs.mergeSort newestLe

/-- `Question.getUnansweredQuestions` static (question.ts:126-131). -/
def getUnansweredQuestions (qs : List Question) : List Question :=
  (qs.filter (fun q => q.answers.isEmpty)).mergeSort newestLe

/-- `Question.getActiveQuestions` static (question.ts:137-153): all
questions, answers populated, stable-sorted by most recent activity
descending. -/
def getActiveQuestions (qs : List Question) : List Question :=
  qs.mergeSort activityLe

/-- `QuestionRepository.getQuestionsByOrder` (question repository
210-232). -/
def getQuestionsByOrder (order : Option String) (qs : List Question) : List Question :=
  if order = some "newest" then getNewestQuestions qs
  else if order = some "unanswered" then getUnansweredQuestions qs
  else if order = some "active" then getActiveQuestions qs
  else getNewestQuestions qs

/-- `QuestionRepository.findQuestionByTitle` (question repository
241-245): `Question.findOne({title})`, the first stored question with
exactly that title. -/
def findQuestionByTitle (title : String) (qs : List Question) : Option Question :=
  qs.find? (fun q => q.title == title)

/-- Modelled from the spec: the three fixed, pre-known special-case
question titles (constants `Q1_DESC`, `Q2_DESC`, `Q3_DESC` imported by
searchStrategy.ts from `../data/posts_strings`, a file not among the
sources).  The spec treats them as opaque configuration data, and no
theorem below depends on their values. -/
def Q1_DESC : String := "special-case question one"

/-- Modelled from the spec: second special-case title (see `Q1_DESC`). -/
def Q2_DESC : String := "special-case question two"

/-- Modelled from the spec: third special-case title (see `Q1_DESC`). -/
def Q3_DESC : String := "special-case question three"

/-- `SpecialSearchStrategy.execute` (searchStrategy.ts:70-77): look up
the three fixed titles, return the list `[q3, q2, q1]` with the `null`
(not found) entries filtered out. -/
def specialExecute (store : Storage) : List Question :=
  let q3 := findQuestionByTitle Q3_DESC store.questions
  let q2 := findQuestionByTitle Q2_DESC store.questions
  let q1 := findQuestionByTitle Q1_DESC store.questions
  [q3, q2, q1].filterMap id

/-- `RegularSearchStrategy.execute` (searchStrategy.ts:109-123):
resolve tags; on the no-such-tag sentinel return the empty list;
otherwise build the query and run the ordering engine. -/
def regularExecute (tagSearchTerms regularSearchTerms : List String)
    (order : Option String) (store : Storage) : List Question :=
  match findTagIds tagSearchTerms store.tags with
  | none => []
  | some tagIds =>
      getQuestionsByQuery (buildQuery tagIds regularSearchTerms) order store.questions

/-- The three strategies `SearchStrategyFactory.createStrategy` can
produce, as a tagged union (the regular strategy carries the parsed
term lists its constructor receives). -/
inductive Strategy where
  | defaultStrategy : Strategy
  | specialStrategy : Strategy
  | regularStrategy (tagSearchTerms regularSearchTerms : List String) : Strategy
deriving DecidableEq, Repr

/-- `SearchStrategyFactory.createStrategy` (searchStrategy.ts:197-213).
JavaScript `!search` is true when the parameter is absent and when it
is the empty string. -/
def createStrategy (search : Option String) : Strategy :=
  match search with
  | none => Strategy.defaultStrategy
  | some s =>
      if s = "" then Strategy.defaultStrategy
      else
        let parsed := parseSearchTerms s
        if isSpecialSearch parsed.regularSearchTerms parsed.tagSearchTerms then
          Strategy.specialStrategy
        else
          Strategy.regularStrategy parsed.tagSearchTerms parsed.regularSearchTerms

/-- `getQuestions` of the question service: create the strategy from
the search parameter and execute it (the default strategy uses the
order key only; the special strategy ignores both parameters). -/
def getQuestions (order search : Option String) (store : Storage) : List Question :=
  match createStrategy search with
  | Strategy.defaultStrategy => getQuestionsByOrder order store.questions
  | Strategy.specialStrategy => specialExecute store
  | Strategy.regularStrategy tagTerms plainTerms => regularExecute tagTerms plainTerms order store

/-- A demonstration question used in witnesses; no answers, asked at 5. -/
def demoQA : Question :=
  { _id := 10, title := "qa", text := "ta", asked_by := "u", ask_date_time := 5, views := 0,
    answers := [], tags := [] }

/-- A second demonstration question with the same activity timestamp. -/
def demoQB : Question :=
  { _id := 11, title := "qb", text := "tb", asked_by := "u", ask_date_time := 5, views := 0,
    answers := [], tags := [] }

end FakeSO

namespace FakeSO

theorem foldl_max_eq (l : List Nat) : ∀ a : Nat, l.foldl max a = max a (l.foldl max 0) := by
  induction l with
  | nil => intro a; simp
  | cons x xs ih =>
    intro a
    simp only [List.foldl_cons]
    rw [ih (max a x), ih (max 0 x), Nat.zero_max, Nat.max_assoc]

theorem le_foldl_max (l : List Nat) : ∀ a : Nat, a ≤ l.foldl max a := by
  induction l with
  | nil => intro a; simp
  | cons x xs ih =>
    intro a
    simp only [List.foldl_cons]
    exact le_trans (Nat.le_max_left a x) (ih (max a x))

/-- The activity timestamp is the fold of `max` over the answers'
creation timestamps, started from the question's own creation timestamp. -/
theorem mostRecentActivity_eq_foldl (q : Question) :
    q.mostRecentActivity = (q.answers.map (fun a => a.ans_date_time)).foldl max q.ask_date_time := by
  unfold Question.mostRecentActivity Question.hasAnswers
  cases h : q.answers with
  | nil => simp [h]
  | cons a as =>
    have hc : (!decide (0 < (a :: as).length)) = false := by simp
    simp only [h, hc, Bool.false_eq_true, if_false, List.map_cons, List.isEmpty_cons]
    rw [foldl_max_eq (a.ans_date_time :: as.map (fun a => a.ans_date_time)) q.ask_date_time]
    rcases Nat.lt_or_ge q.ask_date_time
        (List.foldl max 0 (a.ans_date_time :: as.map (fun a => a.ans_date_time))) with hlt | hge
    · rw [if_pos hlt, max_eq_right (Nat.le_of_lt hlt)]
    · rw [if_neg (Nat.not_lt.mpr hge), max_eq_left hge]

theorem any_or_distrib (l : List α) (p r : α → Bool) :
    (l.any fun x => p x || r x) = (l.any p || l.any r) := by
  induction l with
  | nil => rfl
  | cons x xs ih =>
    simp only [List.any_cons, ih]
    cases p x <;> cases r x <;> cases xs.any p <;> cases xs.any r <;> rfl

theorem length_filter_partition (p : α → Bool) (l : List α) :
    (l.filter p).length + (l.filter (fun a => !(p a))).length = l.length := by
  induction l with
  | nil => rfl
  | cons x xs ih =>
    cases hp : p x <;> simp [List.filter_cons, hp, ← ih] <;> omega

/-- On a non-empty term list, `findTagIds` reduces to the match on the
filtered tag list. -/
theorem findTagIds_cons_eq (terms : List String) (h : terms ≠ []) (tags : List Tag) :
    findTagIds terms tags =
      if (tags.filter (fun t => terms.contains t.name)).isEmpty then none
      else some ((tags.filter (fun t => terms.contains t.name)).map (fun t => t._id)) := by
  cases terms with
  | nil => exact absurd rfl h
  | cons a l => rfl

/-- C1: for every question, the derived activity timestamp equals the
maximum of the question's own creation timestamp and all its answers'
creation timestamps (the fold of binary `max` over the answers'
timestamps started from the question's own); in particular, for a
question with no answers it equals the question's own creation
timestamp. -/
theorem mostRecentActivity_is_max (q : Question) :
    q.mostRecentActivity
        = (q.answers.map (fun a => a.ans_date_time)).foldl max q.ask_date_time ∧
    (q.answers = [] → q.mostRecentActivity = q.ask_date_time) := by
  refine ⟨mostRecentActivity_eq_foldl q, fun h => ?_⟩
  rw [mostRecentActivity_eq_foldl q, h]
  rfl

/-- Witness for C1 at a concrete question without answers. -/
theorem mostRecentActivity_is_max_witness :
    ({ _id := 1, title := "t", text := "b", asked_by := "u", ask_date_time := 50, views := 0,
        answers := [], tags := [] } : Question).mostRecentActivity = 50 :=
  (mostRecentActivity_is_max _).2 rfl

/-- C8: the computed activity timestamp of a question is never earlier
than the question's own creation timestamp. -/
theorem mostRecentActivity_ge_ask (q : Question) :
    q.ask_date_time ≤ q.mostRecentActivity := by
  rw [mostRecentActivity_eq_foldl q]
  exact le_foldl_max _ _

/-- C10: an empty search string takes the same default path as an
absent search parameter: the selected strategy is the default strategy,
and the result is the ordering engine's output for the requested order
key, identical to the absent-search result. -/
theorem empty_search_is_default (order : Option String) (store : Storage) :
    createStrategy (some "") = Strategy.defaultStrategy ∧
    getQuestions order (some "") store = getQuestions order none store ∧
    getQuestions order none store = getQuestionsByOrder order store.questions :=
  ⟨rfl, rfl, rfl⟩

/-- C6: the built query carries its tag clause exactly when the resolved
identifier set is non-empty and its text clause exactly when the plain
terms are non-empty; it matches a question iff (when the tag clause is
present) the question's tag references intersect the identifiers and
(when the text clause is present) the title or the body
case-insensitively contains at least one plain term; with both inputs
empty it matches every question. -/
theorem buildQuery_semantics (tagIds : List Nat) (terms : List String) (q : Question) :
    (buildQuery tagIds terms).tags = (if tagIds = [] then none else some tagIds) ∧
    (buildQuery tagIds terms).orTitleText = (if terms = [] then none else some terms) ∧
    matchesQuery (buildQuery tagIds terms) q =
      ((tagIds.isEmpty || q.tags.any (fun t => tagIds.contains t)) &&
        (terms.isEmpty ||
          terms.any (fun term => regexTestI term q.title || regexTestI term q.text))) ∧
    matchesQuery (buildQuery [] []) q = true := by
  refine ⟨?_, ?_, ?_, rfl⟩
  · cases tagIds <;> cases terms <;> simp [buildQuery]
  · cases tagIds <;> cases terms <;> simp [buildQuery]
  · cases tagIds <;> cases terms <;>
      simp [buildQuery, matchesQuery, any_or_distrib]

/-- C3: tag resolution distinguishes three outcomes: an empty tag-term
set yields the no-filter sentinel `some []` (proceed unfiltered); a
non-empty term set matching no stored tag yields the no-such-tag
sentinel `none`, on which the regular strategy returns the empty result
list; a term set matching at least one stored tag (in particular a
partial match) yields exactly the matched tags' identifiers and is not
treated as no-such-tag. -/
theorem findTagIds_trichotomy (store : Storage) (plain : List String) (order : Option String) :
    findTagIds [] store.tags = some [] ∧
    (∀ terms : List String, terms ≠ [] →
      store.tags.filter (fun t => terms.contains t.name) = [] →
      findTagIds terms store.tags = none ∧
        regularExecute terms plain order store = []) ∧
    (∀ terms : List String,
      store.tags.filter (fun t => terms.contains t.name) ≠ [] →
      findTagIds terms store.tags =
        some ((store.tags.filter (fun t => terms.contains t.name)).map (fun t => t._id))) := by
  refine ⟨rfl, ?_, ?_⟩
  · intro terms ht hm
    have hnone : findTagIds terms store.tags = none := by
      rw [findTagIds_cons_eq terms ht store.tags, hm]
      rfl
    exact ⟨hnone, by unfold regularExecute; rw [hnone]⟩
  · intro terms hm
    have ht : terms ≠ [] := by
      intro h0
      subst h0
      refine hm (List.filter_eq_nil_iff.mpr ?_)
      intro t _
      simp [List.contains]
    have h2 : (store.tags.filter (fun t => terms.contains t.name)).isEmpty = false := by
      cases hfe : store.tags.filter (fun t => terms.contains t.name) with
      | nil => exact absurd hfe hm
      | cons a l => rfl
    rw [findTagIds_cons_eq terms ht store.tags, if_neg ((Bool.not_eq_true _).mpr h2)]

/-- Witness for C3: a partial match ("a" exists, "b" does not) yields
exactly the identifier of "a". -/
theorem findTagIds_trichotomy_witness :
    findTagIds ["a", "b"] [{ _id := 1, name := "a" }] = some [1] :=
  (findTagIds_trichotomy { questions := [], tags := [{ _id := 1, name := "a" }] }
    [] none).2.2 ["a", "b"] (by decide)

/-- C9 counterexample: the tag stored under the name "JavaScript"
(identifier 7) is named by the search term "javascript", its lower-cased
form, yet tag resolution returns the no-such-tag sentinel instead of
identifier 7: the `$in` lookup compares the lower-cased term with the
stored name exactly and case-sensitively. -/
theorem tag_lookup_storage_case_counterexample :
    strToLower "JavaScript" = "javascript" ∧
    findTagIds ["javascript"] [{ _id := 7, name := "JavaScript" }] = none := by
  exact ⟨by decide, by decide⟩

/-- C9 (amended): tag-name lookup is case-insensitive only in the search
term's casing (the parser lower-cases tag terms before resolution); the
lookup itself matches the lower-cased term exactly and case-sensitively
against stored names, so every stored tag whose stored name equals one
of the searched (lower-cased) terms resolves to its identifier, while a
tag stored under any other casing is not matched. -/
theorem tag_lookup_exact_match (tags : List Tag) (terms : List String) (t : Tag)
    (htag : t ∈ tags) (hname : t.name ∈ terms) :
    ∃ ids : List Nat, findTagIds terms tags = some ids ∧ t._id ∈ ids := by
  have ht : terms ≠ [] := by
    intro h0
    rw [h0] at hname
    cases hname
  have hmem : t ∈ tags.filter (fun u => terms.contains u.name) := by
    refine List.mem_filter.mpr ⟨htag, ?_⟩
    simp [List.contains, hname]
  have h2 : (tags.filter (fun u => terms.contains u.name)).isEmpty = false := by
    cases hfe : tags.filter (fun u => terms.contains u.name) with
    | nil => rw [hfe] at hmem; cases hmem
    | cons a l => rfl
  refine ⟨(tags.filter (fun u => terms.contains u.name)).map (fun u => u._id), ?_, ?_⟩
  · rw [findTagIds_cons_eq terms ht tags, if_neg ((Bool.not_eq_true _).mpr h2)]
  · exact List.mem_map_of_mem _ hmem

/-- Witness for C9 (amended): a tag stored in lower case resolves to its
identifier. -/
theorem tag_lookup_exact_match_witness :
    ∃ ids : List Nat,
      findTagIds ["react"] [{ _id := 3, name := "react" }] = some ids ∧ 3 ∈ ids :=
  tag_lookup_exact_match [{ _id := 3, name := "react" }] ["react"]
    { _id := 3, name := "react" } (by decide) (by decide)

/-- C5 counterexample: on the input "a\tb" (a tab between two letters)
the source parser, which splits on the space character only, produces
the single plain term "a\tb", while splitting on whitespace as the
claim states produces the two plain terms "a" and "b". -/
theorem parse_tab_counterexample :
    (parseSearchTerms "a\tb").regularSearchTerms = ["a\tb"] ∧
    (parseSearchTermsSpec "a\tb").regularSearchTerms = ["a", "b"] ∧
    parseSearchTerms "a\tb" ≠ parseSearchTermsSpec "a\tb" := by
  exact ⟨by decide, by decide, by decide⟩

/-- C5 (amended): the parser splits the input on the space character
(U+0020) only — not on general whitespace — into tokens, keeping empty
tokens from consecutive spaces, and classifies every token into exactly
one class: a tag term iff it has a literal leading `[` and trailing `]`
(the tag name being the token with brackets stripped, lower-cased);
every other token, including one with an unmatched bracket such as a
lone `[`, is a lower-cased plain term, and no input string is
rejected. -/
theorem parse_space_partition (s : String) :
    (parseSearchTerms s).tagSearchTerms.length
        + (parseSearchTerms s).regularSearchTerms.length
        = (splitChars (fun c => c = ' ') s).length ∧
    (∀ t : String, t ∈ splitChars (fun c => c = ' ') s →
      (strStartsWith t "[" && strEndsWith t "]") = true →
      strToLower (strSlice1Neg1 t) ∈ (parseSearchTerms s).tagSearchTerms) ∧
    (∀ t : String, t ∈ splitChars (fun c => c = ' ') s →
      (strStartsWith t "[" && strEndsWith t "]") = false →
      strToLower t ∈ (parseSearchTerms s).regularSearchTerms) ∧
    (∀ u : String, u ∈ (parseSearchTerms s).tagSearchTerms →
      ∃ t : String, t ∈ splitChars (fun c => c = ' ') s ∧
        (strStartsWith t "[" && strEndsWith t "]") = true ∧
        u = strToLower (strSlice1Neg1 t)) ∧
    (∀ u : String, u ∈ (parseSearchTerms s).regularSearchTerms →
      ∃ t : String, t ∈ splitChars (fun c => c = ' ') s ∧
        (strStartsWith t "[" && strEndsWith t "]") = false ∧
        u = strToLower t) := by
  refine ⟨?_, ?_, ?_, ?_, ?_⟩
  · simp only [parseSearchTerms, List.length_map]
    exact length_filter_partition _ _
  · intro t ht hb
    exact List.mem_map_of_mem _ (List.mem_filter.mpr ⟨ht, hb⟩)
  · intro t ht hb
    refine List.mem_map_of_mem _ (List.mem_filter.mpr ⟨ht, ?_⟩)
    simp [hb]
  · intro u hu
    obtain ⟨t, htf, rfl⟩ := List.mem_map.mp hu
    obtain ⟨hts, hb⟩ := List.mem_filter.mp htf
    exact ⟨t, hts, hb, rfl⟩
  · intro u hu
    obtain ⟨t, htf, rfl⟩ := List.mem_map.mp hu
    obtain ⟨hts, hb⟩ := List.mem_filter.mp htf
    refine ⟨t, hts, ?_, rfl⟩
    cases h : (strStartsWith t "[" && strEndsWith t "]") with
    | false => rfl
    | true => rw [h] at hb; exact absurd hb (by decide)

/-- Witness for C5 (amended): the token "[js]" of "react [js]" is
classified as the tag term "js". -/
theorem parse_space_partition_witness :
    "js" ∈ (parseSearchTerms "react [js]").tagSearchTerms :=
  (parse_space_partition "react [js]").2.1 "[js]" (by decide) (by decide)

/-- The special-case detector holds iff the three plain words and the
javascript tag term are all present. -/
theorem isSpecialSearch_iff (R T : List String) :
    isSpecialSearch R T = true ↔
      ("40" ∈ R ∧ "million" ∈ R ∧ "documents" ∈ R ∧ "javascript" ∈ T) := by
  simp [isSpecialSearch, List.contains, and_assoc]

/-- C4: for any search string whose parsed plain-term set contains all of
"40", "million" and "documents" and whose tag-term set contains
"javascript", getQuestions takes the special path: the result is the
three fixed title lookups in fixed order (third title's lookup first)
with the titles missing from storage silently omitted, it has at most
three entries, and it is independent of the order parameter; for every
other search string the special strategy is not selected. -/
theorem special_search_selected (s : String) (order order2 : Option String) (store : Storage) :
    (("40" ∈ (parseSearchTerms s).regularSearchTerms ∧
        "million" ∈ (parseSearchTerms s).regularSearchTerms ∧
        "documents" ∈ (parseSearchTerms s).regularSearchTerms ∧
        "javascript" ∈ (parseSearchTerms s).tagSearchTerms) →
      getQuestions order (some s) store =
          [findQuestionByTitle Q3_DESC store.questions,
            findQuestionByTitle Q2_DESC store.questions,
            findQuestionByTitle Q1_DESC store.questions].filterMap id ∧
        getQuestions order (some s) store = getQuestions order2 (some s) store ∧
        (getQuestions order (some s) store).length ≤ 3) ∧
    (¬ ("40" ∈ (parseSearchTerms s).regularSearchTerms ∧
        "million" ∈ (parseSearchTerms s).regularSearchTerms ∧
        "documents" ∈ (parseSearchTerms s).regularSearchTerms ∧
        "javascript" ∈ (parseSearchTerms s).tagSearchTerms) →
      createStrategy (some s) ≠ Strategy.specialStrategy) := by
  constructor
  · intro hc
    have hs : s ≠ "" := by
      intro h0
      subst h0
      have h40 := hc.1
      have hemp : (parseSearchTerms "").regularSearchTerms = [""] := by decide
      rw [hemp] at h40
      simp at h40
    have hstrat : createStrategy (some s) = Strategy.specialStrategy := by
      simp only [createStrategy]
      rw [if_neg hs, if_pos ((isSpecialSearch_iff _ _).mpr hc)]
    have hget : getQuestions order (some s) store = specialExecute store := by
      unfold getQuestions
      rw [hstrat]
    have hget2 : getQuestions order2 (some s) store = specialExecute store := by
      unfold getQuestions
      rw [hstrat]
    refine ⟨?_, ?_, ?_⟩
    · rw [hget]; rfl
    · rw [hget, hget2]
    · rw [hget]
      unfold specialExecute
      exact le_trans (List.length_filterMap_le _ _) (by simp)
  · intro hc hstrat
    by_cases hs : s = ""
    · rw [hs] at hstrat
      exact absurd hstrat (by decide)
    · apply hc
      apply (isSpecialSearch_iff (parseSearchTerms s).regularSearchTerms
        (parseSearchTerms s).tagSearchTerms).mp
      by_contra hsp
      have hreg : createStrategy (some s)
          = Strategy.regularStrategy (parseSearchTerms s).tagSearchTerms
              (parseSearchTerms s).regularSearchTerms := by
        simp only [createStrategy]
        rw [if_neg hs, if_neg hsp]
      rw [hreg] at hstrat
      exact Strategy.noConfusion hstrat

/-- Witness for C4: the special search, in scrambled token order, gives
the same result under two different order keys. -/
theorem special_search_selected_witness :
    getQuestions (some "newest") (some "documents [javascript] million 40")
        { questions := [], tags := [] } =
      getQuestions (some "active") (some "documents [javascript] million 40")
        { questions := [], tags := [] } :=
  ((special_search_selected "documents [javascript] million 40" (some "newest") (some "active")
    { questions := [], tags := [] }).1 (by decide)).2.1

theorem activityLe_trans : ∀ a b c : Question,
    activityLe a b → activityLe b c → activityLe a c := by
  intro a b c hab hbc
  simp only [activityLe, decide_eq_true_eq] at *
  omega

theorem activityLe_total : ∀ a b : Question, activityLe a b || activityLe b a := by
  intro a b
  simp only [activityLe, Bool.or_eq_true, decide_eq_true_eq]
  omega

theorem newestLe_trans : ∀ a b c : Question,
    newestLe a b → newestLe b c → newestLe a c := by
  intro a b c hab hbc
  simp only [newestLe, decide_eq_true_eq] at *
  omega

theorem newestLe_total : ∀ a b : Question, newestLe a b || newestLe b a := by
  intro a b
  simp only [newestLe, Bool.or_eq_true, decide_eq_true_eq]
  omega

/-- C2: under order key "active" the engine filters by the predicate over
the full candidate set — the result is a permutation of exactly the
questions matching the predicate, with no pre-filtering by answer count —
sorted descending by the derived activity timestamp, tying questions
keeping their original retrieval order; and with no search and order key
"active" the ordering engine returns a permutation of all questions
sorted descending by activity timestamp. -/
theorem active_order_correct (query : MongoQuery) (qs : List Question) :
    List.Perm (getQuestionsByQuery query (some "active") qs)
        (qs.filter (fun q => matchesQuery query q)) ∧
    List.Pairwise (fun a b => b.mostRecentActivity ≤ a.mostRecentActivity)
      (getQuestionsByQuery query (some "active") qs) ∧
    (∀ a b : Question, a.mostRecentActivity = b.mostRecentActivity →
      List.Sublist [a, b] (qs.filter (fun q => matchesQuery query q)) →
      List.Sublist [a, b] (getQuestionsByQuery query (some "active") qs)) ∧
    List.Perm (getQuestionsByOrder (some "active") qs) qs ∧
    List.Pairwise (fun a b => b.mostRecentActivity ≤ a.mostRecentActivity)
      (getQuestionsByOrder (some "active") qs) := by
  have hq : getQuestionsByQuery query (some "active") qs
      = (qs.filter (fun q => matchesQuery query q)).mergeSort activityLe := by
    unfold getQuestionsByQuery
    rw [if_pos rfl]
  have ho : getQuestionsByOrder (some "active") qs = qs.mergeSort activityLe := by
    unfold getQuestionsByOrder
    rw [if_neg (by decide), if_neg (by decide), if_pos rfl]
    rfl
  refine ⟨?_, ?_, ?_, ?_, ?_⟩
  · rw [hq]; exact List.mergeSort_perm _ _
  · rw [hq]
    exact (List.sorted_mergeSort activityLe_trans activityLe_total _).imp
      (fun h => by simpa [activityLe] using h)
  · intro a b hab hsub
    rw [hq]
    exact List.pair_sublist_mergeSort activityLe_trans activityLe_total
      (show activityLe a b = true from decide_eq_true (le_of_eq hab.symm)) hsub
  · rw [ho]; exact List.mergeSort_perm _ _
  · rw [ho]
    exact (List.sorted_mergeSort activityLe_trans activityLe_total _).imp
      (fun h => by simpa [activityLe] using h)

/-- Witness for C2: two tying questions keep their retrieval order under
the "active" sort. -/
theorem active_order_correct_witness :
    List.Sublist [demoQA, demoQB] (getQuestionsByQuery {} (some "active") [demoQA, demoQB]) :=
  (active_order_correct {} [demoQA, demoQB]).2.2.1 demoQA demoQB (by decide) (by decide)

/-- C7: under order key "unanswered" the engine returns exactly the
questions matching the predicate that have zero answers, sorted by
creation timestamp descending; under "newest" and under any other order
key that is neither "active" nor "unanswered" (including an absent one)
it returns exactly the questions matching the predicate sorted by
creation timestamp descending. -/
theorem unanswered_and_newest_correct (query : MongoQuery) (qs : List Question) :
    (List.Perm (getQuestionsByQuery query (some "unanswered") qs)
        (qs.filter (fun q => matchesQuery query q && q.answers.isEmpty)) ∧
      List.Pairwise (fun a b => b.ask_date_time ≤ a.ask_date_time)
        (getQuestionsByQuery query (some "unanswered") qs)) ∧
    (∀ order : Option String, order ≠ some "active" → order ≠ some "unanswered" →
      List.Perm (getQuestionsByQuery query order qs)
          (qs.filter (fun q => matchesQuery query q)) ∧
        List.Pairwise (fun a b => b.ask_date_time ≤ a.ask_date_time)
          (getQuestionsByQuery query order qs)) := by
  have hu : getQuestionsByQuery query (some "unanswered") qs
      = (qs.filter (fun q => matchesQuery query q && q.answers.isEmpty)).mergeSort newestLe := by
    unfold getQuestionsByQuery
    rw [if_neg (by decide), if_pos rfl]
  refine ⟨⟨?_, ?_⟩, ?_⟩
  · rw [hu]; exact List.mergeSort_perm _ _
  · rw [hu]
    exact (List.sorted_mergeSort newestLe_trans newestLe_total _).imp
      (fun h => by simpa [newestLe] using h)
  · intro order h1 h2
    have hd : getQuestionsByQuery query order qs
        = (qs.filter (fun q => matchesQuery query q)).mergeSort newestLe := by
      unfold getQuestionsByQuery
      rw [if_neg h1, if_neg h2]
    constructor
    · rw [hd]; exact List.mergeSort_perm _ _
    · rw [hd]
      exact (List.sorted_mergeSort newestLe_trans newestLe_total _).imp
        (fun h => by simpa [newestLe] using h)

/-- Witness for C7: with no filtering clauses and order key "newest" the
result is a permutation of the stored questions. -/
theorem unanswered_and_newest_correct_witness :
    List.Perm (getQuestionsByQuery {} (some "newest") [demoQA, demoQB])
      ([demoQA, demoQB].filter (fun q => matchesQuery {} q)) :=
  ((unanswered_and_newest_correct {} [demoQA, demoQB]).2 (some "newest")
    (by decide) (by decide)).1

end FakeSO
